import Mathlib

/-!
Verification of the seriesly write-behind database layer (`database.go`).

The development shallowly embeds the per-store writer actor, its registry,
the path canonicalization helpers and the read-path range walk, and proves
or refutes the frozen behavioural claims against this embedding.

Strings manipulated byte-wise by the Go code (paths) are modelled as
`List Char`; keys, values and store names elsewhere are Lean `String`s.
The external couchstore library is modelled through the abstract capability
set the specification describes: open, get, ordered walk, bulk batch
(accumulate / commit / close-batch), compact-to-path and close.
-/

set_option autoImplicit false

namespace Seriesly

/-! ## Association list helpers (used for filesystems, stores and registries) -/

def alGet {α : Type} (l : List (String × α)) (k : String) : Option α :=
  match l with
  | [] => none
  | (k₂, v) :: rest => if k₂ = k then some v else alGet rest k

def alSet {α : Type} (l : List (String × α)) (k : String) (v : α) : List (String × α) :=
  match l with
  | [] => [(k, v)]
  | (k₂, v₂) :: rest => if k₂ = k then (k, v) :: rest else (k₂, v₂) :: alSet rest k v

def alDel {α : Type} (l : List (String × α)) (k : String) : List (String × α) :=
  l.filter (fun p => decide (p.1 ≠ k))

@[simp]
theorem alGet_alSet_self {α : Type} (l : List (String × α)) (k : String) (v : α) :
    alGet (alSet l k v) k = some v := by
  induction l with
  | nil => simp [alGet, alSet]
  | cons h t ih =>
    obtain ⟨k₂, v₂⟩ := h
    by_cases hk : k₂ = k <;> simp [alGet, alSet, hk, ih]

theorem alGet_alSet_ne {α : Type} (l : List (String × α)) (k k₂ : String) (v : α)
    (h : k₂ ≠ k) : alGet (alSet l k₂ v) k = alGet l k := by
  induction l with
  | nil => simp [alGet, alSet, h]
  | cons hd t ih =>
    obtain ⟨k₃, v₃⟩ := hd
    by_cases hk : k₃ = k₂
    · subst hk
      simp [alGet, alSet, h]
    · simp [alGet, alSet, hk, ih]

@[simp]
theorem alGet_alDel_self {α : Type} (l : List (String × α)) (k : String) :
    alGet (alDel l k) k = none := by
  induction l with
  | nil => simp [alGet, alDel]
  | cons hd t ih =>
    obtain ⟨k₂, v₂⟩ := hd
    by_cases hk : k₂ = k
    · simpa [alDel, List.filter_cons, hk] using ih
    · simpa [alDel, alGet, List.filter_cons, hk] using ih

theorem alGet_eq_none_iff {α : Type} (l : List (String × α)) (k : String) :
    alGet l k = none ↔ k ∉ l.map Prod.fst := by
  induction l with
  | nil => simp [alGet]
  | cons hd t ih =>
    obtain ⟨k₂, v₂⟩ := hd
    by_cases hk : k₂ = k
    · subst hk; simp [alGet]
    · have hk₂ : ¬ k = k₂ := fun hh => hk hh.symm
      simp [alGet, hk, ih, hk₂]

/-! ## Path canonicalization (`dbPath` / `dbBase`)

`dbPath` calls Go's `filepath.Join`, which concatenates the segments and then
applies the lexical `Clean` algorithm; `clean` below is that algorithm in its
well-known component-stack formulation.  `dbBase` mirrors the byte indexing and
slicing of the Go function; it returns `none` exactly where Go would panic
(index or slice out of range). -/

def dbExt : List Char := ['.', 'c', 'o', 'u', 'c', 'h']

def splitSlash : List Char → List (List Char)
  | [] => [[]]
  | c :: rest =>
    match splitSlash rest with
    | [] => [[c]]
    | h :: t => if c = '/' then [] :: h :: t else (c :: h) :: t

def cleanStep (rooted : Bool) (st : List (List Char)) (c : List Char) : List (List Char) :=
  if c = ['.', '.'] then
    match st with
    | [] => if rooted then [] else [['.', '.']]
    | top :: rest => if top = ['.', '.'] then c :: top :: rest else rest
  else c :: st

def clean (p : List Char) : List Char :=
  if p = [] then ['.']
  else
    let rooted := p.head? = some '/'
    let comps := (splitSlash p).filter (fun c => decide (c ≠ [] ∧ c ≠ ['.']))
    let comps₂ := (comps.foldl (cleanStep rooted) []).reverse
    if rooted then '/' :: List.intercalate ['/'] comps₂
    else if comps₂ = [] then ['.']
    else List.intercalate ['/'] comps₂

def filepathJoin (a b : List Char) : List Char :=
  if a = [] then
    if b = [] then [] else clean b
  else clean (a ++ '/' :: b)

def dbPath (root n : List Char) : List Char :=
  filepathJoin root n ++ dbExt

def dbBaseSlice (n : List Char) (left right : Nat) : Option (List Char) :=
  if left ≤ right then some ((n.take right).drop left) else none

def dbBase (root n : List Char) : Option (List Char) :=
  if root.isPrefixOf n then
    if h : root.length < n.length then
      dbBaseSlice n
        (if n.get ⟨root.length, h⟩ = '/' then root.length + 1 else root.length)
        (if dbExt.isSuffixOf n then n.length - dbExt.length else n.length)
    else none
  else
    dbBaseSlice n 0
      (if dbExt.isSuffixOf n then n.length - dbExt.length else n.length)

/-- Claim C8: the claim asserts `dbBase (dbPath n) = n` for every store name.
It fails for names that `filepath.Join` rewrites: under root `"db"` the name
`"."` maps to path `"db.couch"`, from which `dbBase` recovers `""`, not `"."`. -/
theorem dbBase_dbPath_counterexample :
    dbBase ['d', 'b'] (dbPath ['d', 'b'] ['.']) ≠ some ['.'] := by
  decide

/-- Claim C8 (amended): for every root and name the join leaves intact
(`filepath.Join root n = root ++ "/" ++ n`, i.e. the name is a clean relative
path under a clean root), recovering the name from the path yields the name:
`dbBase root (dbPath root n) = some n`. -/
theorem dbBase_dbPath_roundtrip (root n : List Char)
    (hj : filepathJoin root n = root ++ '/' :: n) :
    dbBase root (dbPath root n) = some n := by
  have hp : dbPath root n = root ++ '/' :: (n ++ dbExt) := by
    simp [dbPath, hj]
  rw [hp, dbBase]
  have hpre : root.isPrefixOf (root ++ '/' :: (n ++ dbExt)) := by
    rw [List.isPrefixOf_iff_prefix]
    exact List.prefix_append _ _
  rw [if_pos hpre]
  have hlen : (root ++ '/' :: (n ++ dbExt)).length
      = root.length + (1 + (n.length + dbExt.length)) := by
    simp only [List.length_append, List.length_cons]
    omega
  have hlt : root.length < (root ++ '/' :: (n ++ dbExt)).length := by
    rw [hlen]; omega
  rw [dif_pos hlt]
  have hget : (root ++ '/' :: (n ++ dbExt)).get ⟨root.length, hlt⟩ = '/' := by
    rw [List.get_eq_getElem, List.getElem_append_right (le_refl root.length)]
    simp
  rw [hget, if_pos rfl]
  have hsuf : dbExt.isSuffixOf (root ++ '/' :: (n ++ dbExt)) := by
    rw [List.isSuffixOf_iff_suffix]
    have : root ++ '/' :: (n ++ dbExt) = (root ++ '/' :: n) ++ dbExt := by simp
    rw [this]
    exact List.suffix_append _ _
  rw [if_pos hsuf]
  have hext : dbExt.length = 6 := by decide
  have hright : (root ++ '/' :: (n ++ dbExt)).length - dbExt.length
      = root.length + 1 + n.length := by
    rw [hlen, hext]; omega
  rw [hright]
  unfold dbBaseSlice
  have hle : root.length + 1 ≤ root.length + 1 + n.length := by omega
  rw [if_pos hle]
  congr 1
  have hsplit : root ++ '/' :: (n ++ dbExt) = ((root ++ ['/']) ++ n) ++ dbExt := by simp
  rw [hsplit]
  have htake : (((root ++ ['/']) ++ n) ++ dbExt).take (root.length + 1 + n.length)
      = (root ++ ['/']) ++ n := by
    have hlen₂ : ((root ++ ['/']) ++ n).length = root.length + 1 + n.length := by
      simp only [List.length_append, List.length_singleton]
    rw [← hlen₂]
    exact List.take_left _ _
  rw [htake]
  have hlen₃ : (root ++ ['/']).length = root.length + 1 := by
    simp only [List.length_append, List.length_singleton]
  rw [← hlen₃]
  exact List.drop_left _ _

/-- Claim C8 witness: under root `"db"` the clean name `"a"` joins without
rewriting and round-trips through `dbPath` / `dbBase`. -/
theorem dbBase_dbPath_roundtrip_witness :
    filepathJoin ['d', 'b'] ['a'] = ['d', 'b'] ++ '/' :: ['a'] ∧
    dbBase ['d', 'b'] (dbPath ['d', 'b'] ['a']) = some ['a'] :=
  ⟨by decide, dbBase_dbPath_roundtrip _ _ (by decide)⟩

/-- Claim C9: the claim asserts `dbBase` is total, in particular defined when
the input equals the configured root exactly.  It is not: with root `"db"` and
input `"db"` the prefix match leaves no character after the root, and Go's
`n[len(root)]` indexes out of bounds (modelled as `none`). -/
theorem dbBase_root_input_panics : dbBase ['d', 'b'] ['d', 'b'] = none := by
  decide

/-- Claim C9 (amended): `dbBase` is defined on every input that either does not
have the root as a prefix, or is at least seven bytes longer than the root
(which covers every path `dbList` feeds it: root, separator, name, `".couch"`);
it is undefined when the prefix match leaves no byte after the root. -/
theorem dbBase_isSome (root n : List Char)
    (h : ¬ root.isPrefixOf n = true ∨ root.length + 7 ≤ n.length) :
    (dbBase root n).isSome = true := by
  rw [dbBase]
  by_cases hpre : root.isPrefixOf n = true
  · rw [if_pos hpre]
    have hlen : root.length + 7 ≤ n.length := by
      rcases h with h | h
      · exact absurd hpre h
      · exact h
    have hlt : root.length < n.length := by omega
    rw [dif_pos hlt]
    have hext : dbExt.length = 6 := by decide
    unfold dbBaseSlice
    have hle : (if n.get ⟨root.length, hlt⟩ = '/' then root.length + 1 else root.length)
        ≤ (if dbExt.isSuffixOf n then n.length - dbExt.length else n.length) := by
      rw [hext]
      split_ifs <;> omega
    rw [if_pos hle]
    simp
  · rw [if_neg hpre]
    unfold dbBaseSlice
    rw [if_pos (Nat.zero_le _)]
    simp

/-- Claim C9 witness: `dbBase` is defined at the path `"db/a.couch"` under root
`"db"`. -/
theorem dbBase_isSome_witness :
    (dbBase ['d', 'b'] ['d', 'b', '/', 'a', '.', 'c', 'o', 'u', 'c', 'h']).isSome = true :=
  dbBase_isSome _ _ (Or.inr (by decide))

/-! ## Registry (`dbConns`, `getOrCreateDB`, `dbWriter.Close`, `dbcompact`)

`getOrCreateDB` looks up `dbConns` under the global lock and calls
`dbWriteFun` (which opens the store) when absent.  The underlying store open
is the external `couchstore.Open`; its outcome is a parameter
`openRes : String → Option String` (`none` = success, `some e` = `OpenError`).
A `Writer` records the identity of the spawned actor and whether its `quit`
channel has been closed. -/

structure Writer where
  wid : Nat
  quitClosed : Bool
deriving DecidableEq, Repr

abbrev Registry := List (String × Writer)

/-- `getOrCreateDB`: returns `(writer, opened, err, registry-after)`, mirroring
the Go return values plus the updated `dbConns` mapping. -/
def getOrCreateDB (openRes : String → Option String) (fresh : Nat)
    (r : Registry) (dbname : String) : Option Writer × Bool × Option String × Registry :=
  match alGet r dbname with
  | some w => (some w, false, none, r)
  | none =>
    match openRes dbname with
    | some e => (none, false, some e, r)
    | none => (some ⟨fresh, false⟩, true, none, r ++ [(dbname, ⟨fresh, false⟩)])

/-- `dbWriter.Close`: fails with `errClosed` when the quit channel is already
closed, otherwise closes it. -/
def writerClose (w : Writer) : Option String × Writer :=
  if w.quitClosed then (some "closed", w) else (none, { w with quitClosed := true })

/-- Observable actions of the `dbcompact` entry point, in program order. -/
inductive Act where
  | sentCompact
  | gotReply (e : Option String)
  | closedWriter (res : Option String)
deriving DecidableEq, Repr

/-- The `dbcompact` entry point: resolve or create the actor, close it after
the reply only when this call created it.  `reply` is the error the actor
reports on the operation's result channel. -/
def dbcompact (openRes : String → Option String) (fresh : Nat) (reply : Option String)
    (r : Registry) (dbname : String) : Option String × Registry × List Act :=
  match getOrCreateDB openRes fresh r dbname with
  | (_, _, some e, r') => (some e, r', [])
  | (none, _, none, r') => (none, r', [])
  | (some w, opened, none, r') =>
    let acts := [Act.sentCompact, Act.gotReply reply]
    if opened then
      let (res, w') := writerClose w
      (reply, alSet r' dbname w', acts ++ [Act.closedWriter res])
    else (reply, r', acts)

/-- Claim C4: the registry holds at most one actor per name.  Under the lock,
`getOrCreateDB` returns the existing actor with `wasCreated = false` when an
entry is present; when absent it opens the store and records exactly one new
actor with `wasCreated = true`; on open failure it returns the error with the
mapping unchanged; and it preserves distinctness of registered names. -/
theorem getOrCreateDB_spec (openRes : String → Option String) (fresh : Nat)
    (r : Registry) (dbname : String) :
    (∀ w, alGet r dbname = some w →
      getOrCreateDB openRes fresh r dbname = (some w, false, none, r)) ∧
    (alGet r dbname = none → openRes dbname = none →
      getOrCreateDB openRes fresh r dbname
        = (some ⟨fresh, false⟩, true, none, r ++ [(dbname, ⟨fresh, false⟩)])) ∧
    (∀ e, alGet r dbname = none → openRes dbname = some e →
      getOrCreateDB openRes fresh r dbname = (none, false, some e, r)) ∧
    ((r.map Prod.fst).Nodup →
      (((getOrCreateDB openRes fresh r dbname).2.2.2).map Prod.fst).Nodup) := by
  refine ⟨?_, ?_, ?_, ?_⟩
  · intro w hw
    simp [getOrCreateDB, hw]
  · intro hnone hopen
    simp [getOrCreateDB, hnone, hopen]
  · intro e hnone hopen
    simp [getOrCreateDB, hnone, hopen]
  · intro hnodup
    rcases hw : alGet r dbname with _ | w
    · rcases hopen : openRes dbname with _ | e
      · have hmem : dbname ∉ r.map Prod.fst := (alGet_eq_none_iff r dbname).mp hw
        simp [getOrCreateDB, hw, hopen, List.nodup_append, hnodup, hmem]
      · simpa [getOrCreateDB, hw, hopen] using hnodup
    · simpa [getOrCreateDB, hw] using hnodup

/-- Claim C4 witness: on an empty registry with a successful open, the call
creates exactly one actor for `"x"`. -/
theorem getOrCreateDB_spec_witness :
    getOrCreateDB (fun _ => none) 0 [] "x"
      = (some ⟨0, false⟩, true, none, [("x", ⟨0, false⟩)]) :=
  (getOrCreateDB_spec (fun _ => none) 0 [] "x").2.1 rfl rfl

/-- Claim C10: when the compact request created the actor (`opened = true`),
`dbcompact` requests its termination after the reply is received (the
`closedWriter` action follows `gotReply` and the writer's quit channel ends up
closed); when the actor already existed, it is left open and the registry is
unchanged. -/
theorem dbcompact_close_iff_created (openRes : String → Option String) (fresh : Nat)
    (reply : Option String) (r : Registry) (dbname : String) :
    (alGet r dbname = none → openRes dbname = none →
      dbcompact openRes fresh reply r dbname
        = (reply, alSet (r ++ [(dbname, ⟨fresh, false⟩)]) dbname ⟨fresh, true⟩,
           [Act.sentCompact, Act.gotReply reply, Act.closedWriter none]) ∧
      alGet (dbcompact openRes fresh reply r dbname).2.1 dbname
        = some ⟨fresh, true⟩) ∧
    (∀ w, alGet r dbname = some w →
      dbcompact openRes fresh reply r dbname
        = (reply, r, [Act.sentCompact, Act.gotReply reply])) := by
  constructor
  · intro hnone hopen
    constructor
    · simp [dbcompact, getOrCreateDB, hnone, hopen, writerClose]
    · simp [dbcompact, getOrCreateDB, hnone, hopen, writerClose]
  · intro w hw
    simp [dbcompact, getOrCreateDB, hw]

/-- Claim C10 witness: compacting an unregistered store `"x"` creates the
actor, and the trace shows the close request issued after the reply; the
writer left in the registry has its quit channel closed. -/
theorem dbcompact_close_iff_created_witness :
    dbcompact (fun _ => none) 0 none [] "x"
      = (none, [("x", ⟨0, true⟩)],
         [Act.sentCompact, Act.gotReply none, Act.closedWriter none]) ∧
    dbcompact (fun _ => none) 0 none [("x", ⟨7, false⟩)] "x"
      = (none, [("x", ⟨7, false⟩)], [Act.sentCompact, Act.gotReply none]) := by
  constructor
  · have h := ((dbcompact_close_iff_created (fun _ => none) 0 none [] "x").1 rfl rfl).1
    simpa [alSet] using h
  · exact (dbcompact_close_iff_created (fun _ => none) 0 none [("x", ⟨7, false⟩)] "x").2
      ⟨7, false⟩ rfl

/-! ## Writer actor event loop (`dbWriteLoop`, `dbCompact`)

The loop owns the store handle exclusively: the state below carries the
filesystem (path → committed store content), whether the handle is open, the
batch context (`Bulk`), the pending count `queued`, the liveness counter
`liveOps`, the quit flag and whether the loop is still running, plus the
`dbConns` names for the deregistration step.  Events are the four `select`
cases of `dbWriteLoop`; outside-world effects are reported as `Out` actions.
External couchstore calls follow the spec's capability set: a commit applies
the accumulated batch through the handle to the store file and a commit on a
closed batch context has no effect (the library's bulk goroutine has exited);
compact-to-path and the post-compaction reopen can fail, controlled by
`Env`. -/

abbrev Doc := List (String × String)

inductive BItem where
  | bset (k v : String)
  | bdel (k : String)
deriving DecidableEq, Repr

structure Bulk where
  pending : List BItem
  bclosed : Bool
deriving DecidableEq, Repr

def freshBulk : Bulk := ⟨[], false⟩

def applyBItem (d : Doc) : BItem → Doc
  | .bset k v => alSet d k v
  | .bdel k => alDel d k

def applyBulk (d : Doc) (l : List BItem) : Doc := l.foldl applyBItem d

structure Env where
  compactOk : Bool
  renameOk : Bool
  reopenOk : Bool
deriving DecidableEq, Repr

structure LoopState where
  fs : List (String × Doc)
  registry : List String
  dbOpen : Bool
  bulk : Bulk
  queued : Nat
  liveOps : Nat
  quitClosed : Bool
  running : Bool
deriving DecidableEq, Repr

inductive Out where
  | committed (n : Nat)
  | timerReset
  | compactedTo (p : String)
  | renamed (src dst : String)
  | closedStore
  | reopenedStore
  | fatalError
  | compactReply (e : Option String)
deriving DecidableEq, Repr

inductive DbOp where
  | opStoreItem (k v : String)
  | opDeleteItem (k : String)
  | opCompact
deriving DecidableEq, Repr

inductive Ev where
  | evQuit
  | evLiveTick
  | evItem (op : DbOp)
  | evFlushTick
deriving DecidableEq, Repr

def dbPathStr (root n : String) : String := String.mk (dbPath root.data n.data)

/-- `bulk.Commit()` through the actor's handle at path `dbn`: applies the
pending items to the store file in order and clears them.  A commit on a
closed batch context has no effect. -/
def bulkCommit (dbn : String) (s : LoopState) : LoopState × List Out :=
  if s.bulk.bclosed then (s, [])
  else
    ({ s with fs := alSet s.fs dbn (applyBulk ((alGet s.fs dbn).getD []) s.bulk.pending),
              bulk := { s.bulk with pending := [] } },
     [Out.committed s.bulk.pending.length])

/-- `dbCompact`: pre-flush and close the batch context when items are queued,
compact to `<path>.compact`, rename it over `<path>`, close and reopen the
handle, return the fresh batch context and the error for the result channel.
The last component is true when `log.Fatalf` fired (reopen failure). -/
def dbCompact (env : Env) (dbn : String) (s : LoopState) :
    LoopState × List Out × Option String × Bool :=
  let pre :=
    if 0 < s.queued then
      let p := bulkCommit dbn s
      ({ p.1 with bulk := { p.1.bulk with bclosed := true } }, p.2)
    else (s, [])
  let s₁ := pre.1
  let o₁ := pre.2
  if env.compactOk = false then
    ({ s₁ with bulk := freshBulk }, o₁, some "compact error", false)
  else
    let content := (alGet s₁.fs dbn).getD []
    let s₂ := { s₁ with fs := alSet s₁.fs (dbn ++ ".compact") content }
    let o₂ := o₁ ++ [Out.compactedTo (dbn ++ ".compact")]
    if env.renameOk = false then
      ({ s₂ with bulk := freshBulk }, o₂, some "rename error", false)
    else
      let s₃ := { s₂ with fs := alSet (alDel s₂.fs (dbn ++ ".compact")) dbn content,
                          dbOpen := false }
      let o₃ := o₂ ++ [Out.renamed (dbn ++ ".compact") dbn, Out.closedStore]
      if env.reopenOk ∧ (alGet s₃.fs dbn).isSome then
        ({ s₃ with dbOpen := true, bulk := freshBulk }, o₃ ++ [Out.reopenedStore], none, false)
      else
        (s₃, o₃ ++ [Out.fatalError], none, true)

/-- The threshold check at the bottom of the `dq.ch` case: when the pending
count has reached `*maxOpQueue`, commit synchronously, zero the count and
reset the flush timer. -/
def afterItem (thr : Nat) (dbn : String) (s : LoopState) (acc : List Out) :
    LoopState × List Out :=
  if thr ≤ s.queued then
    let p := bulkCommit dbn s
    ({ p.1 with queued := 0 }, acc ++ p.2 ++ [Out.timerReset])
  else (s, acc)

/-- One iteration of `dbWriteLoop`'s `select`, handling one ready event. -/
def dbWriteLoopStep (env : Env) (thr : Nat) (root dbname : String)
    (s : LoopState) (e : Ev) : LoopState × List Out :=
  if s.running = false then (s, [])
  else
    match e with
    | .evQuit =>
      if s.quitClosed = false then (s, [])
      else
        let s₁ := { s with bulk := { s.bulk with bclosed := true } }
        let p := bulkCommit (dbPathStr root dbname) s₁
        ({ p.1 with dbOpen := false,
                    registry := p.1.registry.filter (fun x => decide (x ≠ dbname)),
                    running := false },
         p.2 ++ [Out.closedStore])
    | .evLiveTick =>
      if s.queued = 0 ∧ s.liveOps = 0 then
        ({ s with quitClosed := true, liveOps := 0 }, [])
      else ({ s with liveOps := 0 }, [])
    | .evItem op =>
      let s₀ := { s with liveOps := s.liveOps + 1 }
      match op with
      | .opStoreItem k v =>
        afterItem thr (dbPathStr root dbname)
          { s₀ with bulk := { s₀.bulk with pending := s₀.bulk.pending ++ [BItem.bset k v] },
                    queued := s₀.queued + 1 } []
      | .opDeleteItem k =>
        afterItem thr (dbPathStr root dbname)
          { s₀ with queued := s₀.queued + 1,
                    bulk := { s₀.bulk with pending := s₀.bulk.pending ++ [BItem.bdel k] } } []
      | .opCompact =>
        let r := dbCompact env (dbPathStr root dbname) s₀
        if r.2.2.2 then ({ r.1 with running := false }, r.2.1)
        else
          afterItem thr (dbPathStr root dbname) { r.1 with queued := 0 }
            (r.2.1 ++ [Out.compactReply r.2.2.1])
    | .evFlushTick =>
      if 0 < s.queued then
        let p := bulkCommit (dbPathStr root dbname) s
        ({ p.1 with queued := 0 }, p.2 ++ [Out.timerReset])
      else (s, [Out.timerReset])

/-- Run the loop over a sequence of ready events, accumulating the outputs. -/
def dbWriteLoopRun (env : Env) (thr : Nat) (root dbname : String)
    (s : LoopState) : List Ev → LoopState × List Out
  | [] => (s, [])
  | e :: rest =>
    let p := dbWriteLoopStep env thr root dbname s e
    let q := dbWriteLoopRun env thr root dbname p.1 rest
    (q.1, p.2 ++ q.2)

/-- A freshly created actor's state: empty store file at its path, registered
under its name, open handle, fresh batch context, loop running. -/
def initLoopState (root dbname : String) : LoopState :=
  { fs := [(dbPathStr root dbname, [])], registry := [dbname], dbOpen := true,
    bulk := freshBulk, queued := 0, liveOps := 0, quitClosed := false, running := true }

/-- Claim C7: on an idle tick, an actor whose pending count and liveness
counter are both zero initiates termination, and processing the resulting
quit signal removes it from the registry and stops the loop; otherwise the
tick only resets the liveness counter and the actor continues — in particular
an actor with pending batched operations never self-terminates on an idle
tick. -/
theorem idleTick_spec (env : Env) (thr : Nat) (root dbname : String) (s : LoopState)
    (hrun : s.running = true) :
    (s.queued = 0 → s.liveOps = 0 →
      (dbWriteLoopStep env thr root dbname s Ev.evLiveTick).1.quitClosed = true ∧
      (dbWriteLoopStep env thr root dbname s Ev.evLiveTick).1.running = true ∧
      dbname ∉ (dbWriteLoopRun env thr root dbname s [Ev.evLiveTick, Ev.evQuit]).1.registry ∧
      (dbWriteLoopRun env thr root dbname s [Ev.evLiveTick, Ev.evQuit]).1.running = false) ∧
    (¬ (s.queued = 0 ∧ s.liveOps = 0) →
      (dbWriteLoopStep env thr root dbname s Ev.evLiveTick).1 = { s with liveOps := 0 } ∧
      (dbWriteLoopStep env thr root dbname s Ev.evLiveTick).2 = []) := by
  constructor
  · intro hq hl
    refine ⟨?_, ?_, ?_, ?_⟩ <;>
      simp [dbWriteLoopRun, dbWriteLoopStep, bulkCommit, hrun, hq, hl]
  · intro hne
    constructor <;> simp [dbWriteLoopStep, hrun, hne]

/-- Claim C7 witness: a fresh idle actor for `"x"` under root `"r"` terminates
across an idle tick followed by its quit signal and is gone from the registry;
an actor with one pending operation merely resets its liveness counter. -/
theorem idleTick_spec_witness :
    ("x" ∉ (dbWriteLoopRun ⟨true, true, true⟩ 100 "r" "x" (initLoopState "r" "x")
        [Ev.evLiveTick, Ev.evQuit]).1.registry) ∧
    ((dbWriteLoopStep ⟨true, true, true⟩ 100 "r" "x"
        { initLoopState "r" "x" with queued := 1 } Ev.evLiveTick).1
      = { initLoopState "r" "x" with queued := 1, liveOps := 0 }) := by
  constructor
  · exact ((idleTick_spec ⟨true, true, true⟩ 100 "r" "x" (initLoopState "r" "x") rfl).1
      rfl rfl).2.2.1
  · exact ((idleTick_spec ⟨true, true, true⟩ 100 "r" "x"
      { initLoopState "r" "x" with queued := 1 } rfl).2 (by simp [initLoopState])).1

/-- Claim C1 (code-bug evidence): an actor for `"x"` under root `"r"` with one
pending `Store("k","v")` processes its terminate signal.  The handler closes
the batch context *before* issuing the commit, so the commit is a no-op: the
loop stops, the handle is closed and the actor is deregistered, but the store
file still lacks the pending item and no commit was observed — contradicting
the claim that every accepted Store/Delete operation is committed before the
handle closes. -/
theorem quit_drops_pending_batch :
    (dbWriteLoopStep ⟨true, true, true⟩ 100 "r" "x"
        { initLoopState "r" "x" with
            bulk := { pending := [BItem.bset "k" "v"], bclosed := false },
            queued := 1, quitClosed := true }
        Ev.evQuit).1.running = false ∧
    (dbWriteLoopStep ⟨true, true, true⟩ 100 "r" "x"
        { initLoopState "r" "x" with
            bulk := { pending := [BItem.bset "k" "v"], bclosed := false },
            queued := 1, quitClosed := true }
        Ev.evQuit).1.registry = [] ∧
    (dbWriteLoopStep ⟨true, true, true⟩ 100 "r" "x"
        { initLoopState "r" "x" with
            bulk := { pending := [BItem.bset "k" "v"], bclosed := false },
            queued := 1, quitClosed := true }
        Ev.evQuit).1.dbOpen = false ∧
    alGet (dbWriteLoopStep ⟨true, true, true⟩ 100 "r" "x"
        { initLoopState "r" "x" with
            bulk := { pending := [BItem.bset "k" "v"], bclosed := false },
            queued := 1, quitClosed := true }
        Ev.evQuit).1.fs (dbPathStr "r" "x") = some [] ∧
    (dbWriteLoopStep ⟨true, true, true⟩ 100 "r" "x"
        { initLoopState "r" "x" with
            bulk := { pending := [BItem.bset "k" "v"], bclosed := false },
            queued := 1, quitClosed := true }
        Ev.evQuit).2 = [Out.closedStore] := by
  decide

theorem compactPath_ne (s : String) : s ++ ".compact" ≠ s := by
  intro h
  have hlen : (s ++ ".compact").length = s.length := by rw [h]
  rw [String.length_append] at hlen
  have h8 : (".compact" : String).length = 8 := by decide
  rw [h8] at hlen
  omega

theorem dbWriteLoopRun_append (env : Env) (thr : Nat) (root dbname : String)
    (l₁ l₂ : List Ev) : ∀ s : LoopState,
    dbWriteLoopRun env thr root dbname s (l₁ ++ l₂)
      = ((dbWriteLoopRun env thr root dbname
            (dbWriteLoopRun env thr root dbname s l₁).1 l₂).1,
         (dbWriteLoopRun env thr root dbname s l₁).2
           ++ (dbWriteLoopRun env thr root dbname
            (dbWriteLoopRun env thr root dbname s l₁).1 l₂).2) := by
  induction l₁ with
  | nil => intro s; simp [dbWriteLoopRun]
  | cons e rest ih => intro s; simp [dbWriteLoopRun, ih]

/-- A run of Store operations that keeps the pending count strictly below the
threshold performs no commit and no other side effect: it only appends to the
pending batch and bumps the pending and liveness counters. -/
theorem run_stores_below_threshold (env : Env) (thr : Nat) (root dbname : String)
    (ks : List (String × String)) : ∀ s : LoopState, s.running = true →
    s.queued + ks.length < thr →
    (dbWriteLoopRun env thr root dbname s
        (ks.map (fun kv => Ev.evItem (DbOp.opStoreItem kv.1 kv.2)))).2 = [] ∧
    (dbWriteLoopRun env thr root dbname s
        (ks.map (fun kv => Ev.evItem (DbOp.opStoreItem kv.1 kv.2)))).1
      = { s with queued := s.queued + ks.length,
                 liveOps := s.liveOps + ks.length,
                 bulk := { s.bulk with
                   pending := s.bulk.pending
                     ++ ks.map (fun kv => BItem.bset kv.1 kv.2) } } := by
  induction ks with
  | nil =>
    intro s hrun hlt
    constructor
    · simp [dbWriteLoopRun]
    · simp [dbWriteLoopRun]
  | cons kv rest ih =>
    intro s hrun hlt
    rw [List.length_cons] at hlt
    have hstep : dbWriteLoopStep env thr root dbname s
        (Ev.evItem (DbOp.opStoreItem kv.1 kv.2))
        = ({ s with
              queued := s.queued + 1, liveOps := s.liveOps + 1,
              bulk := { s.bulk with
                pending := s.bulk.pending ++ [BItem.bset kv.1 kv.2] } }, []) := by
      have hnotthr : ¬ thr ≤ s.queued + 1 := by omega
      simp [dbWriteLoopStep, hrun, afterItem, hnotthr]
    have hrest := ih { s with
        queued := s.queued + 1, liveOps := s.liveOps + 1,
        bulk := { s.bulk with pending := s.bulk.pending ++ [BItem.bset kv.1 kv.2] } }
      hrun
      (by show s.queued + 1 + rest.length < thr; omega)
    constructor
    · simp only [List.map_cons, dbWriteLoopRun, hstep]
      simpa using hrest.1
    · simp only [List.map_cons, dbWriteLoopRun, hstep]
      rw [hrest.2]
      simp only [List.append_assoc, List.cons_append, List.nil_append, List.length_cons]
      congr 1 <;> omega

/-- Claim C5: starting from an actor with an empty pending batch, submitting
exactly `thr` Store operations without an intervening timer tick triggers
exactly one synchronous commit, carrying exactly `thr` items, and resets the
pending count to 0 and the flush timer. -/
theorem threshold_flush_spec (env : Env) (thr : Nat) (root dbname : String)
    (s : LoopState) (ks : List (String × String))
    (hrun : s.running = true) (hcl : s.bulk.bclosed = false)
    (hq : s.queued = 0) (hp : s.bulk.pending = [])
    (hlen : ks.length = thr) (hthr : 1 ≤ thr) :
    (dbWriteLoopRun env thr root dbname s
        (ks.map (fun kv => Ev.evItem (DbOp.opStoreItem kv.1 kv.2)))).2
      = [Out.committed thr, Out.timerReset] ∧
    (dbWriteLoopRun env thr root dbname s
        (ks.map (fun kv => Ev.evItem (DbOp.opStoreItem kv.1 kv.2)))).1.queued = 0 ∧
    (dbWriteLoopRun env thr root dbname s
        (ks.map (fun kv => Ev.evItem (DbOp.opStoreItem kv.1 kv.2)))).1.bulk.pending = [] ∧
    (dbWriteLoopRun env thr root dbname s
        (ks.map (fun kv => Ev.evItem (DbOp.opStoreItem kv.1 kv.2)))).1.running = true := by
  rcases List.eq_nil_or_concat ks with hks | ⟨front, last, hks⟩
  · subst hks
    simp at hlen
    omega
  · subst hks
    have hfl : front.length + 1 = thr := by simpa using hlen
    have hfront := run_stores_below_threshold env thr root dbname front s hrun
      (by omega)
    have hmid := hfront.2
    set sMid : LoopState :=
      { s with queued := s.queued + front.length,
               liveOps := s.liveOps + front.length,
               bulk := { s.bulk with
                 pending := s.bulk.pending
                   ++ front.map (fun kv => BItem.bset kv.1 kv.2) } } with hsMid
    have hlast : dbWriteLoopStep env thr root dbname sMid
        (Ev.evItem (DbOp.opStoreItem last.1 last.2))
        = ({ sMid with
              queued := 0, liveOps := sMid.liveOps + 1,
              fs := alSet sMid.fs (dbPathStr root dbname)
                (applyBulk ((alGet sMid.fs (dbPathStr root dbname)).getD [])
                  (sMid.bulk.pending ++ [BItem.bset last.1 last.2])),
              bulk := { sMid.bulk with pending := [] } },
           [Out.committed thr, Out.timerReset]) := by
      have hq₂ : sMid.queued + 1 = thr := by
        simp [hsMid, hq]
        omega
      have hthr₂ : thr ≤ sMid.queued + 1 := by omega
      have hp0 : s.bulk.pending.length = 0 := by rw [hp]; rfl
      have hplen : (sMid.bulk.pending ++ [BItem.bset last.1 last.2]).length = thr := by
        simp [hsMid]
        omega
      simp [dbWriteLoopStep, hrun, afterItem, hthr₂, bulkCommit, hcl, hplen]
      omega
    rw [List.concat_eq_append, List.map_append, List.map_singleton,
      dbWriteLoopRun_append env thr root dbname _ _ s, hfront.1, hmid]
    refine ⟨?_, ?_, ?_, ?_⟩ <;> simp [dbWriteLoopRun, hlast, hrun]

/-- Claim C5 witness: with threshold 2, two Store operations on a fresh actor
for `"x"` produce exactly one commit of 2 items followed by a timer reset. -/
theorem threshold_flush_spec_witness :
    (dbWriteLoopRun ⟨true, true, true⟩ 2 "r" "x" (initLoopState "r" "x")
        ([("a", "1"), ("b", "2")].map (fun kv => Ev.evItem (DbOp.opStoreItem kv.1 kv.2)))).2
      = [Out.committed 2, Out.timerReset] :=
  (threshold_flush_spec ⟨true, true, true⟩ 2 "r" "x" (initLoopState "r" "x")
    [("a", "1"), ("b", "2")] rfl rfl rfl rfl rfl (by decide)).1

/-- From an actor with a fresh batch context, a Store operation followed by a
flush-timer tick lands the item in the store file via exactly one commit of
one item (the commit happens at the threshold check when `thr = 1`, at the
timer otherwise). -/
theorem store_then_flush (env : Env) (thr : Nat) (root dbname : String)
    (s : LoopState) (D : Doc) (k v : String)
    (hrun : s.running = true) (hb : s.bulk = freshBulk) (hq : s.queued = 0)
    (hfs : alGet s.fs (dbPathStr root dbname) = some D) (hthr : 1 ≤ thr) :
    alGet (dbWriteLoopRun env thr root dbname s
        [Ev.evItem (DbOp.opStoreItem k v), Ev.evFlushTick]).1.fs (dbPathStr root dbname)
      = some (alSet D k v) ∧
    Out.committed 1 ∈ (dbWriteLoopRun env thr root dbname s
        [Ev.evItem (DbOp.opStoreItem k v), Ev.evFlushTick]).2 ∧
    (dbWriteLoopRun env thr root dbname s
        [Ev.evItem (DbOp.opStoreItem k v), Ev.evFlushTick]).1.running = true := by
  by_cases h1 : thr ≤ 1
  · refine ⟨?_, ?_, ?_⟩ <;>
      simp [dbWriteLoopRun, dbWriteLoopStep, afterItem, bulkCommit, hrun, hb, hq, hfs,
        h1, applyBulk, applyBItem, freshBulk]
  · refine ⟨?_, ?_, ?_⟩ <;>
      simp [dbWriteLoopRun, dbWriteLoopStep, afterItem, bulkCommit, hrun, hb, hq, hfs,
        h1, applyBulk, applyBItem, freshBulk]

/-- Claim C2: a Compact operation whose compact-to-path or rename step fails
reports that error on the result channel, leaves the actor Active with a
fresh batch context on the existing open handle, and leaves the original
store file untouched; a subsequent Store operation is accepted and eventually
committed. -/
theorem compact_failure_spec (env : Env) (thr : Nat) (root dbname : String)
    (s : LoopState) (D : Doc) (k v : String)
    (hrun : s.running = true) (hthr : 1 ≤ thr)
    (hb : s.bulk = freshBulk) (hq : s.queued = 0) (hopen : s.dbOpen = true)
    (hfs : alGet s.fs (dbPathStr root dbname) = some D)
    (hfail : env.compactOk = false ∨ env.renameOk = false) :
    (dbWriteLoopStep env thr root dbname s (Ev.evItem DbOp.opCompact)).2
      = (if env.compactOk = false then [Out.compactReply (some "compact error")]
         else [Out.compactedTo (dbPathStr root dbname ++ ".compact"),
               Out.compactReply (some "rename error")]) ∧
    (dbWriteLoopStep env thr root dbname s (Ev.evItem DbOp.opCompact)).1.running = true ∧
    (dbWriteLoopStep env thr root dbname s (Ev.evItem DbOp.opCompact)).1.dbOpen = true ∧
    (dbWriteLoopStep env thr root dbname s (Ev.evItem DbOp.opCompact)).1.bulk = freshBulk ∧
    (dbWriteLoopStep env thr root dbname s (Ev.evItem DbOp.opCompact)).1.queued = 0 ∧
    alGet (dbWriteLoopStep env thr root dbname s (Ev.evItem DbOp.opCompact)).1.fs
        (dbPathStr root dbname) = some D ∧
    alGet (dbWriteLoopRun env thr root dbname
        (dbWriteLoopStep env thr root dbname s (Ev.evItem DbOp.opCompact)).1
        [Ev.evItem (DbOp.opStoreItem k v), Ev.evFlushTick]).1.fs (dbPathStr root dbname)
      = some (alSet D k v) ∧
    Out.committed 1 ∈ (dbWriteLoopRun env thr root dbname
        (dbWriteLoopStep env thr root dbname s (Ev.evItem DbOp.opCompact)).1
        [Ev.evItem (DbOp.opStoreItem k v), Ev.evFlushTick]).2 ∧
    (dbWriteLoopRun env thr root dbname
        (dbWriteLoopStep env thr root dbname s (Ev.evItem DbOp.opCompact)).1
        [Ev.evItem (DbOp.opStoreItem k v), Ev.evFlushTick]).1.running = true := by
  have hne := compactPath_ne (dbPathStr root dbname)
  have hnotthr : ¬ thr ≤ 0 := by omega
  have hstep : dbWriteLoopStep env thr root dbname s (Ev.evItem DbOp.opCompact)
      = ({ s with
            liveOps := s.liveOps + 1, queued := 0, bulk := freshBulk,
            fs := if env.compactOk = false then s.fs
                  else alSet s.fs (dbPathStr root dbname ++ ".compact") D },
         if env.compactOk = false then [Out.compactReply (some "compact error")]
         else [Out.compactedTo (dbPathStr root dbname ++ ".compact"),
               Out.compactReply (some "rename error")]) := by
    rcases hfail with hc | hr
    · simp [dbWriteLoopStep, dbCompact, hrun, hq, hc, afterItem, hnotthr]
    · by_cases hc : env.compactOk = false
      · simp [dbWriteLoopStep, dbCompact, hrun, hq, hc, afterItem, hnotthr]
      · simp [dbWriteLoopStep, dbCompact, hrun, hq, hc, hr, afterItem, hnotthr, hfs]
  have hfs₂ : alGet (dbWriteLoopStep env thr root dbname s
      (Ev.evItem DbOp.opCompact)).1.fs (dbPathStr root dbname) = some D := by
    rw [hstep]
    by_cases hc : env.compactOk = false
    · simp [hc, hfs]
    · simp [hc, alGet_alSet_ne _ _ _ _ hne, hfs]
  have hrest := store_then_flush env thr root dbname
    (dbWriteLoopStep env thr root dbname s (Ev.evItem DbOp.opCompact)).1 D k v
    (by rw [hstep]; exact hrun) (by rw [hstep]) (by rw [hstep]) hfs₂ hthr
  refine ⟨?_, ?_, ?_, ?_, ?_, hfs₂, hrest.1, hrest.2.1, hrest.2.2⟩
  · rw [hstep]
  · rw [hstep]; exact hrun
  · rw [hstep]; exact hopen
  · rw [hstep]
  · rw [hstep]

/-- Claim C2 witness: forcing compact-to-path to fail on a fresh actor for
`"x"` reports the error, and a subsequent Store of `("k","v")` reaches the
store file. -/
theorem compact_failure_spec_witness :
    (dbWriteLoopStep ⟨false, true, true⟩ 2 "r" "x" (initLoopState "r" "x")
        (Ev.evItem DbOp.opCompact)).2 = [Out.compactReply (some "compact error")] ∧
    alGet (dbWriteLoopRun ⟨false, true, true⟩ 2 "r" "x"
        (dbWriteLoopStep ⟨false, true, true⟩ 2 "r" "x" (initLoopState "r" "x")
          (Ev.evItem DbOp.opCompact)).1
        [Ev.evItem (DbOp.opStoreItem "k" "v"), Ev.evFlushTick]).1.fs (dbPathStr "r" "x")
      = some (alSet [] "k" "v") := by
  have h := compact_failure_spec ⟨false, true, true⟩ 2 "r" "x" (initLoopState "r" "x")
    [] "k" "v" rfl (by decide) rfl rfl rfl (by simp [initLoopState, alGet]) (Or.inl rfl)
  exact ⟨by simpa using h.1, h.2.2.2.2.2.2.1⟩


/-- Claim C3: a successful Compact operation first commits any pending batch
and discards its context; compacts the store to `<path>.compact`; renames that
over `<path>`; closes the old handle and reopens the store at the same path;
obtains a fresh batch context; and reports nil on the result channel.  When
the post-compaction reopen fails, the process terminates fatally instead. -/
theorem compact_success_spec (env : Env) (thr : Nat) (root dbname : String)
    (s : LoopState) (D : Doc)
    (hrun : s.running = true) (hthr : 1 ≤ thr)
    (hcl : s.bulk.bclosed = false) (hsync : s.bulk.pending.length = s.queued)
    (hopen : s.dbOpen = true)
    (hfs : alGet s.fs (dbPathStr root dbname) = some D)
    (hcomp : env.compactOk = true) (hren : env.renameOk = true) :
    (env.reopenOk = true →
      (dbWriteLoopStep env thr root dbname s (Ev.evItem DbOp.opCompact)).2
        = (if 0 < s.queued then [Out.committed s.queued] else [])
          ++ [Out.compactedTo (dbPathStr root dbname ++ ".compact"),
              Out.renamed (dbPathStr root dbname ++ ".compact") (dbPathStr root dbname),
              Out.closedStore, Out.reopenedStore, Out.compactReply none] ∧
      (dbWriteLoopStep env thr root dbname s (Ev.evItem DbOp.opCompact)).1.bulk
        = freshBulk ∧
      (dbWriteLoopStep env thr root dbname s (Ev.evItem DbOp.opCompact)).1.dbOpen
        = true ∧
      (dbWriteLoopStep env thr root dbname s (Ev.evItem DbOp.opCompact)).1.queued = 0 ∧
      (dbWriteLoopStep env thr root dbname s (Ev.evItem DbOp.opCompact)).1.running
        = true ∧
      alGet (dbWriteLoopStep env thr root dbname s
          (Ev.evItem DbOp.opCompact)).1.fs (dbPathStr root dbname)
        = some (applyBulk D s.bulk.pending) ∧
      alGet (dbWriteLoopStep env thr root dbname s
          (Ev.evItem DbOp.opCompact)).1.fs (dbPathStr root dbname ++ ".compact")
        = none) ∧
    (env.reopenOk = false →
      (dbWriteLoopStep env thr root dbname s (Ev.evItem DbOp.opCompact)).2
        = (if 0 < s.queued then [Out.committed s.queued] else [])
          ++ [Out.compactedTo (dbPathStr root dbname ++ ".compact"),
              Out.renamed (dbPathStr root dbname ++ ".compact") (dbPathStr root dbname),
              Out.closedStore, Out.fatalError] ∧
      (dbWriteLoopStep env thr root dbname s
          (Ev.evItem DbOp.opCompact)).1.running = false) := by
  have hne := compactPath_ne (dbPathStr root dbname)
  have hnotthr : ¬ thr ≤ 0 := by omega
  constructor
  · intro hro
    by_cases hq : 0 < s.queued
    · refine ⟨?_, ?_, ?_, ?_, ?_, ?_, ?_⟩ <;>
        simp [dbWriteLoopStep, dbCompact, bulkCommit, afterItem, hrun, hq, hcl, hcomp,
          hren, hro, hnotthr, hfs, hsync, hopen, alGet_alSet_ne _ _ _ _ (Ne.symm hne)]
    · have hq0 : s.queued = 0 := by omega
      have hpend : s.bulk.pending = [] :=
        List.eq_nil_of_length_eq_zero (by rw [hsync, hq0])
      refine ⟨?_, ?_, ?_, ?_, ?_, ?_, ?_⟩ <;>
        simp [dbWriteLoopStep, dbCompact, bulkCommit, afterItem, hrun, hq, hcl, hcomp,
          hren, hro, hnotthr, hfs, hpend, applyBulk, hopen,
          alGet_alSet_ne _ _ _ _ (Ne.symm hne)]
  · intro hro
    by_cases hq : 0 < s.queued
    · refine ⟨?_, ?_⟩ <;>
        simp [dbWriteLoopStep, dbCompact, bulkCommit, afterItem, hrun, hq, hcl, hcomp,
          hren, hro, hnotthr, hfs, hsync, hopen]
    · have hq0 : s.queued = 0 := by omega
      have hpend : s.bulk.pending = [] :=
        List.eq_nil_of_length_eq_zero (by rw [hsync, hq0])
      refine ⟨?_, ?_⟩ <;>
        simp [dbWriteLoopStep, dbCompact, bulkCommit, afterItem, hrun, hq, hcl, hcomp,
          hren, hro, hnotthr, hfs, hpend, applyBulk, hopen]

/-- Claim C3 witness: compacting a fresh actor for `"x"` holding one pending
Store succeeds: the pre-flush commit, the compact/rename/close/reopen sequence
and the nil reply all appear, and the temporary file is gone. -/
theorem compact_success_spec_witness :
    (dbWriteLoopStep ⟨true, true, true⟩ 5 "r" "x"
        { initLoopState "r" "x" with
            bulk := { pending := [BItem.bset "k" "v"], bclosed := false },
            queued := 1 }
        (Ev.evItem DbOp.opCompact)).2
      = [Out.committed 1,
         Out.compactedTo (dbPathStr "r" "x" ++ ".compact"),
         Out.renamed (dbPathStr "r" "x" ++ ".compact") (dbPathStr "r" "x"),
         Out.closedStore, Out.reopenedStore, Out.compactReply none] ∧
    alGet (dbWriteLoopStep ⟨true, true, true⟩ 5 "r" "x"
        { initLoopState "r" "x" with
            bulk := { pending := [BItem.bset "k" "v"], bclosed := false },
            queued := 1 }
        (Ev.evItem DbOp.opCompact)).1.fs (dbPathStr "r" "x" ++ ".compact") = none := by
  have h := (compact_success_spec ⟨true, true, true⟩ 5 "r" "x"
    { initLoopState "r" "x" with
        bulk := { pending := [BItem.bset "k" "v"], bclosed := false },
        queued := 1 }
    [] rfl (by decide) rfl rfl rfl (by simp [initLoopState, alGet]) rfl rfl).1 rfl
  exact ⟨by simpa using h.1, h.2.2.2.2.2.2⟩

/-! ## Read path range walk (`dbwalk` / `dbwalkKeys`)

The underlying store's ordered walk starts at the first key not below `from`
and visits entries in ascending key order; the visitor can continue, stop the
iteration (couchstore's `StopIteration`, reported as success) or fail.  The
wrappers stop the walk at the first key `≥ hi` when `hi` is non-empty and
release the transient handle when the walk ends. -/

inductive WalkRes where
  | wcont
  | wstop
  | wfail (e : String)
deriving DecidableEq, Repr

def walkDocs (frm : String) (g : String → String → WalkRes) :
    List (String × String) → Option String × List String
  | [] => (none, [])
  | (k, v) :: rest =>
    if k < frm then walkDocs frm g rest
    else
      match g k v with
      | .wcont =>
        let r := walkDocs frm g rest
        (r.1, k :: r.2)
      | .wstop => (none, [])
      | .wfail e => (some e, [k])

/-- `dbwalk`: open a transient handle, walk documents from `frm`, stop at the
first key `≥ hi` when `hi` is non-empty, pass the rest to the visitor.
Returns the propagated error, the keys the visitor was invoked on, and
whether the transient handle was released. -/
def dbwalk (fs : List (String × Doc)) (root dbname frm hi : String)
    (f : String → String → Option String) : Option String × List String × Bool :=
  match alGet fs (dbPathStr root dbname) with
  | none => (some "open error", [], false)
  | some docs =>
    let r := walkDocs frm (fun k v =>
      if hi ≠ "" ∧ hi ≤ k then WalkRes.wstop
      else
        match f k v with
        | none => WalkRes.wcont
        | some e => WalkRes.wfail e) docs
    (r.1, r.2, true)

/-- `dbwalkKeys`: same shape as `dbwalk` with a key-only visitor. -/
def dbwalkKeys (fs : List (String × Doc)) (root dbname frm hi : String)
    (f : String → Option String) : Option String × List String × Bool :=
  match alGet fs (dbPathStr root dbname) with
  | none => (some "open error", [], false)
  | some docs =>
    let r := walkDocs frm (fun k _ =>
      if hi ≠ "" ∧ hi ≤ k then WalkRes.wstop
      else
        match f k with
        | none => WalkRes.wcont
        | some e => WalkRes.wfail e) docs
    (r.1, r.2, true)

/-- The half-open range `[frm, hi)` of the scan, with `hi = ""` meaning no
upper bound. -/
def inRange (frm hi k : String) : Prop :=
  (¬ k < frm) ∧ (hi = "" ∨ ¬ hi ≤ k)

instance (frm hi k : String) : Decidable (inRange frm hi k) := by
  unfold inRange
  infer_instance

theorem walkDocs_all (frm hi : String) (g : String → String → WalkRes)
    (hg : ∀ k v, g k v = if hi ≠ "" ∧ hi ≤ k then WalkRes.wstop else WalkRes.wcont) :
    ∀ docs : List (String × String), docs.Pairwise (fun a b => a.1 < b.1) →
    walkDocs frm g docs
      = (none, (docs.map Prod.fst).filter (fun k => decide (inRange frm hi k))) := by
  intro docs
  induction docs with
  | nil => intro _; simp [walkDocs]
  | cons hd rest ih =>
    intro hpw
    obtain ⟨k, v⟩ := hd
    rw [List.pairwise_cons] at hpw
    by_cases hk : k < frm
    · have hnr : ¬ inRange frm hi k := fun hr => hr.1 hk
      simp [walkDocs, hk, ih hpw.2, hnr]
    · by_cases hstop : hi ≠ "" ∧ hi ≤ k
      · have hgk : g k v = WalkRes.wstop := by rw [hg]; exact if_pos hstop
        have hfilt : (((k, v) :: rest).map Prod.fst).filter
            (fun x => decide (inRange frm hi x)) = [] := by
          rw [List.filter_eq_nil_iff]
          intro a ha
          simp only [List.map_cons, List.mem_cons, List.mem_map] at ha
          rcases ha with rfl | ⟨b, hb, rfl⟩
          · simp only [decide_eq_true_eq]
            intro hr
            rcases hr.2 with h0 | h0
            · exact hstop.1 h0
            · exact h0 hstop.2
          · simp only [decide_eq_true_eq]
            intro hr
            have hkb : k < b.1 := hpw.1 b hb
            rcases hr.2 with h0 | h0
            · exact hstop.1 h0
            · exact h0 (le_trans hstop.2 (le_of_lt hkb))
        rw [hfilt]
        simp [walkDocs, hk, hgk]
      · have hgk : g k v = WalkRes.wcont := by rw [hg]; exact if_neg hstop
        have hr : inRange frm hi k := by
          constructor
          · exact hk
          · rcases not_and_or.mp hstop with h0 | h0
            · exact Or.inl (not_not.mp h0)
            · exact Or.inr h0
        simp [walkDocs, hk, hgk, ih hpw.2, hr]

theorem walkDocs_fail (frm hi e : String) (g : String → String → WalkRes)
    (hg : ∀ k v, g k v = if hi ≠ "" ∧ hi ≤ k then WalkRes.wstop else WalkRes.wfail e) :
    ∀ docs : List (String × String), docs.Pairwise (fun a b => a.1 < b.1) →
    (docs.map Prod.fst).filter (fun k => decide (inRange frm hi k)) ≠ [] →
    (walkDocs frm g docs).1 = some e := by
  intro docs
  induction docs with
  | nil => intro _ hne; simp at hne
  | cons hd rest ih =>
    intro hpw hne
    obtain ⟨k, v⟩ := hd
    rw [List.pairwise_cons] at hpw
    by_cases hk : k < frm
    · have hnr : ¬ inRange frm hi k := fun hr => hr.1 hk
      have hne₂ : (rest.map Prod.fst).filter (fun x => decide (inRange frm hi x)) ≠ [] := by
        simpa [hnr] using hne
      simp [walkDocs, hk, ih hpw.2 hne₂]
    · by_cases hstop : hi ≠ "" ∧ hi ≤ k
      · exfalso
        apply hne
        rw [List.filter_eq_nil_iff]
        intro a ha
        simp only [List.map_cons, List.mem_cons, List.mem_map] at ha
        rcases ha with rfl | ⟨b, hb, rfl⟩
        · simp only [decide_eq_true_eq]
          intro hr
          rcases hr.2 with h0 | h0
          · exact hstop.1 h0
          · exact h0 hstop.2
        · simp only [decide_eq_true_eq]
          intro hr
          have hkb : k < b.1 := hpw.1 b hb
          rcases hr.2 with h0 | h0
          · exact hstop.1 h0
          · exact h0 (le_trans hstop.2 (le_of_lt hkb))
      · have hgk : g k v = WalkRes.wfail e := by rw [hg]; exact if_neg hstop
        simp [walkDocs, hk, hgk]

/-- Claim C6: a range scan over a sorted store visits exactly the keys in the
half-open interval `[frm, hi)` in ascending (filter) order, with no upper
bound when `hi` is empty; the transient handle is released however the walk
ends; a visitor error is propagated to the caller; and the key-only walk
behaves identically. -/
theorem scan_range_spec (fs : List (String × Doc)) (root dbname frm hi : String)
    (docs : Doc)
    (hfs : alGet fs (dbPathStr root dbname) = some docs)
    (hsorted : docs.Pairwise (fun a b => a.1 < b.1)) :
    (∀ f : String → String → Option String, (∀ k v, f k v = none) →
      dbwalk fs root dbname frm hi f
        = (none, (docs.map Prod.fst).filter (fun k => decide (inRange frm hi k)), true)) ∧
    (∀ f, (dbwalk fs root dbname frm hi f).2.2 = true) ∧
    (∀ e, (docs.map Prod.fst).filter (fun k => decide (inRange frm hi k)) ≠ [] →
      (dbwalk fs root dbname frm hi (fun _ _ => some e)).1 = some e) ∧
    (∀ g : String → Option String, (∀ k, g k = none) →
      dbwalkKeys fs root dbname frm hi g
        = (none, (docs.map Prod.fst).filter (fun k => decide (inRange frm hi k)), true)) := by
  refine ⟨?_, ?_, ?_, ?_⟩
  · intro f hf
    have h := walkDocs_all frm hi
      (fun k v =>
        if hi ≠ "" ∧ hi ≤ k then WalkRes.wstop
        else
          match f k v with
          | none => WalkRes.wcont
          | some e => WalkRes.wfail e)
      (fun k v => by simp only [hf]) docs hsorted
    simp only [dbwalk, hfs]
    rw [h]
  · intro f
    simp only [dbwalk, hfs]
  · intro e hne
    have h := walkDocs_fail frm hi e
      (fun k v =>
        if hi ≠ "" ∧ hi ≤ k then WalkRes.wstop
        else
          match (fun (_ _ : String) => some e) k v with
          | none => WalkRes.wcont
          | some e2 => WalkRes.wfail e2)
      (fun k v => rfl) docs hsorted hne
    simp only [dbwalk, hfs]
    exact h
  · intro g hg
    have h := walkDocs_all frm hi
      (fun k v =>
        if hi ≠ "" ∧ hi ≤ k then WalkRes.wstop
        else
          match g k with
          | none => WalkRes.wcont
          | some e => WalkRes.wfail e)
      (fun k v => by simp only [hg]) docs hsorted
    simp only [dbwalkKeys, hfs]
    rw [h]

/-- Claim C6 witness: with keys `a, b, c` stored, scanning `["a","c")` visits
exactly `a, b` in order and scanning from `"b"` with no upper bound visits
`b, c`; both release the handle and report no error. -/
theorem scan_range_spec_witness :
    dbwalk [(dbPathStr "r" "x", [("a", "1"), ("b", "2"), ("c", "3")])] "r" "x" "a" "c"
        (fun _ _ => none) = (none, ["a", "b"], true) ∧
    dbwalk [(dbPathStr "r" "x", [("a", "1"), ("b", "2"), ("c", "3")])] "r" "x" "b" ""
        (fun _ _ => none) = (none, ["b", "c"], true) := by
  have hsort : List.Pairwise (fun (a b : String × String) => a.1 < b.1)
      [("a", "1"), ("b", "2"), ("c", "3")] := by
    simp only [List.pairwise_cons, List.mem_cons, List.mem_singleton]
    refine ⟨?_, ?_, ?_⟩
    · intro a ha
      rcases ha with rfl | rfl | h
      · rw [String.lt_iff_toList_lt]; decide
      · rw [String.lt_iff_toList_lt]; decide
      · simp at h
    · intro a ha
      rcases ha with rfl | h
      · rw [String.lt_iff_toList_lt]; decide
      · simp at h
    · exact ⟨fun a h => absurd h (by simp), List.Pairwise.nil⟩
  constructor
  · have h := (scan_range_spec
      [(dbPathStr "r" "x", [("a", "1"), ("b", "2"), ("c", "3")])] "r" "x" "a" "c"
      [("a", "1"), ("b", "2"), ("c", "3")] (by simp [alGet]) hsort).1
      (fun _ _ => none) (fun _ _ => rfl)
    rw [h]
    have r1 : inRange "a" "c" "a" :=
      ⟨by rw [String.lt_iff_toList_lt]; decide,
       Or.inr (by rw [String.le_iff_toList_le]; decide)⟩
    have r2 : inRange "a" "c" "b" :=
      ⟨by rw [String.lt_iff_toList_lt]; decide,
       Or.inr (by rw [String.le_iff_toList_le]; decide)⟩
    have r3 : ¬ inRange "a" "c" "c" := by
      intro hr
      rcases hr.2 with h0 | h0
      · exact absurd h0 (by decide)
      · exact h0 (le_refl _)
    simp only [List.map_cons, List.map_nil, List.filter_cons, List.filter_nil,
      decide_eq_true_eq, r1, r2, r3, if_true, if_false, decide_True, decide_False]
    simp [r3]
  · have h := (scan_range_spec
      [(dbPathStr "r" "x", [("a", "1"), ("b", "2"), ("c", "3")])] "r" "x" "b" ""
      [("a", "1"), ("b", "2"), ("c", "3")] (by simp [alGet]) hsort).1
      (fun _ _ => none) (fun _ _ => rfl)
    rw [h]
    have r1 : ¬ inRange "b" "" "a" := fun hr =>
      hr.1 (by rw [String.lt_iff_toList_lt]; decide)
    have r2 : inRange "b" "" "b" :=
      ⟨by rw [String.lt_iff_toList_lt]; decide, Or.inl rfl⟩
    have r3 : inRange "b" "" "c" :=
      ⟨by rw [String.lt_iff_toList_lt]; decide, Or.inl rfl⟩
    simp only [List.map_cons, List.map_nil, List.filter_cons, List.filter_nil,
      decide_eq_true_eq, r2, r3, if_true, if_false, decide_True, decide_False]
    simp [r1]

end Seriesly
